import Mathlib

/-!
Verification of the flash-planning core of a device-management CLI
(src/lib/flash-helper.js and src/cmd/flash.js).

Shallow embedding notes:
* Module descriptors come from the external binary parser
  (binary-version-reader); we model the fields the core reads.
  `moduleFunction` is kept as the enumerated module type directly; the
  source's `moduleTypeToString` (from the external dependency-walker
  collaborator) is an injective renaming of these variants to strings,
  so comparisons such as `moduleType === 'assets'` are modelled as
  comparisons of the enum value itself.
* Byte buffers are lists of byte values (`Nat`, each < 256 in practice).
* Hex address strings (`moduleStartAddy`, `formerUserPart.address`) are
  modelled by their parsed numeric value.
* Semantic versions compared with `semver.lt` are modelled as naturals
  ordered by `<`; version fields that may be absent are `Option Nat`.
* `path.basename` is modelled as the identity on the stored filename
  (filenames in the model are base names).
* The source looks platform profiles up in the static `PLATFORMS` table
  by id; the model takes the looked-up profile as an argument.
-/

/-- The module function types of binary-version-reader's
`ModuleInfo.FunctionType`, named as the spec's type enumeration. -/
inductive FunctionType where
  | bootloader
  | systemPart
  | userPart
  | monolithicFirmware
  | ncpFirmware
  | radioStack
  | resource
  | settings
  | asset
  | invalid
deriving DecidableEq, Repr

/-- `prefixInfo` of a parsed module: the fields the flash core reads. -/
structure PrefixInfo where
  moduleFunction : FunctionType
  moduleIndex : Nat
  platformID : Nat
  depModuleVersion : Nat
  moduleStartAddy : Nat
  moduleFlags : Nat
  prefixSize : Nat
deriving DecidableEq, Repr

/-- A module descriptor as produced by `parseModulesToFlash`: the parser
output plus the originating filename.  `crcOk` is `module.crc.ok`. -/
structure ParsedModule where
  filename : String
  crcOk : Bool
  prefixInfo : PrefixInfo
  fileBuffer : List Nat
deriving DecidableEq, Repr

/-- One entry of a platform's `firmwareModules` table
(@particle/device-constants).  `encrypted` is optional in the data and
absent means not encrypted, so it is modelled as a `Bool`. -/
structure FirmwareModuleSlot where
  type : FunctionType
  index : Nat
  encrypted : Bool
  storage : String
deriving DecidableEq, Repr

/-- `dfu.segments.formerUserPart` of a platform: the legacy user-part
region (address already parsed from its hex string). -/
structure FormerUserPart where
  address : Nat
  size : Nat
deriving DecidableEq, Repr

/-- The platform profile fields the flash core consults. -/
structure Platform where
  id : Nat
  firmwareModules : List FirmwareModuleSlot
  formerUserPart : Option FormerUserPart
deriving DecidableEq, Repr

/-- `ModuleInfo.Flags.DROP_MODULE_INFO` of binary-version-reader. -/
def dropModuleInfoFlag : Nat := 1

/-- A step's transfer mode: `'normal'` or `'dfu'` in the source. -/
inductive FlashMode where
  | normal
  | dfu
deriving DecidableEq, Repr

/-- A planned flash step.  Module-originated steps carry the module's
`prefixInfo` (the identifying part of the source's `moduleInfo` record);
the synthetic legacy-invalidation step has none.  `address` is set only
for DFU-mode steps. -/
structure FlashStep where
  name : String
  data : List Nat
  flashMode : FlashMode
  address : Option Nat
  moduleInfo : Option PrefixInfo
deriving DecidableEq, Repr

/-! ## Module Filter (`filterModulesToFlash`, flash-helper.js lines 103-119) -/

/-- The slot of `platform.firmwareModules` matching a module by type and
index, as looked up inside the filter loop. -/
def findSlot (p : Platform) (mi : ParsedModule) : Option FirmwareModuleSlot :=
  p.firmwareModules.find? fun m =>
    m.type = mi.prefixInfo.moduleFunction && m.index = mi.prefixInfo.moduleIndex

/-- `platformModule && platformModule.encrypted` of the source. -/
def slotEncrypted (p : Platform) (mi : ParsedModule) : Bool :=
  match findSlot p mi with
  | some slot => slot.encrypted
  | none => false

/-- `filterModulesToFlash({ modules, platformId, allowAll })`: keeps a
module iff it is not in an encrypted slot, and is neither a radio-stack
nor an NCP-firmware module unless `allowAll` is set.  The source builds
the result by pushing kept modules in order, modelled as `List.filter`. -/
def filterModulesToFlash (p : Platform) (modules : List ParsedModule)
    (allowAll : Bool) : List ParsedModule :=
  modules.filter fun moduleInfo =>
    let isEncrypted := slotEncrypted p moduleInfo
    let isRadioStack := moduleInfo.prefixInfo.moduleFunction = FunctionType.radioStack
    let isNcpFirmware := moduleInfo.prefixInfo.moduleFunction = FunctionType.ncpFirmware
    !isEncrypted && (!isRadioStack || allowAll) && (!isNcpFirmware || allowAll)

/-- The drop condition exactly as the specification words it: platform
slot marked encrypted, OR type radioStack with override-all false, OR
type ncpFirmware with override-all false. -/
def specDropCondition (p : Platform) (allowAll : Bool) (m : ParsedModule) : Bool :=
  slotEncrypted p m
    || (m.prefixInfo.moduleFunction = FunctionType.radioStack && !allowAll)
    || (m.prefixInfo.moduleFunction = FunctionType.ncpFirmware && !allowAll)

/-! ## Module Validator (`_validateModulesForPlatform`, flash.js lines 303-312) -/

/-- The typed failures of the flash pipeline modelled here.
`internalError` stands for a runtime `TypeError` of the source
(a missing platform slot during planning, or indexing an empty module
list). -/
inductive FlashError where
  | crcMismatch (filename : String)
  | platformMismatch (filename : String)
  | writeFailure (name : String)
  | internalError
deriving DecidableEq, Repr

/-- `_validateModulesForPlatform({ modules, platformId, platformName })`:
walks the modules in order and throws on the first failing check, CRC
first, then platform id (asset modules exempt from the platform check). -/
def validateModulesForPlatform (platformId : Nat) :
    List ParsedModule → Except FlashError Unit
  | [] => Except.ok ()
  | moduleInfo :: rest =>
    if !moduleInfo.crcOk then
      Except.error (FlashError.crcMismatch moduleInfo.filename)
    else if moduleInfo.prefixInfo.platformID ≠ platformId
        ∧ moduleInfo.prefixInfo.moduleFunction ≠ FunctionType.asset then
      Except.error (FlashError.platformMismatch moduleInfo.filename)
    else validateModulesForPlatform platformId rest

/-- The validation outcome for one module: the error the validator
raises for it, if any (CRC checked first, then platform id with the
asset exemption). -/
def moduleValidationError (platformId : Nat) (m : ParsedModule) : Option FlashError :=
  if !m.crcOk then some (FlashError.crcMismatch m.filename)
  else if m.prefixInfo.platformID ≠ platformId
      ∧ m.prefixInfo.moduleFunction ≠ FunctionType.asset then
    some (FlashError.platformMismatch m.filename)
  else none

/-! ## Flash Step Planner (`createFlashSteps`, flash-helper.js lines 132-178)

The source first runs the modules through the external dependency
sorter (`sortBinariesByDependency`, an external collaborator assumed
total); the planner is modelled on its output, the dependency-sorted
module list. -/

/-- `DEVICE_OS_MIN_VERSION_TO_FORMAT_128K_USER` of the source. -/
def DEVICE_OS_MIN_VERSION_TO_FORMAT_128K_USER : Nat := 3103

/-- The synthetic legacy-invalidation step built for a platform's
former user-part region: a DFU step at the region's address whose
payload is the region's size of 0xFF bytes. -/
def legacyInvalidationStep (r : FormerUserPart) : FlashStep :=
  { name := "invalidate-128k-user-part",
    data := List.replicate r.size 0xFF,
    flashMode := FlashMode.dfu,
    address := some r.address,
    moduleInfo := none }

/-- The step payload: the file buffer, with the module prefix stripped
when the module flags equal `DROP_MODULE_INFO`. -/
def stepData (m : ParsedModule) : List Nat :=
  if m.prefixInfo.moduleFlags = dropModuleInfoFlag then
    m.fileBuffer.drop m.prefixInfo.prefixSize
  else m.fileBuffer

/-- The flash step built for a module before mode-specific fields are
assigned (name, data and module info; mode defaults to normal). -/
def baseStep (m : ParsedModule) : FlashStep :=
  { name := m.filename,
    data := stepData m,
    flashMode := FlashMode.normal,
    address := none,
    moduleInfo := some m.prefixInfo }

/-- The module's own DFU step: the base step with DFU mode and the
module's start address. -/
def dfuStep (m : ParsedModule) : FlashStep :=
  { baseStep m with
    flashMode := FlashMode.dfu,
    address := some m.prefixInfo.moduleStartAddy }

/-- The storage slot the planner consults: the first firmware-module
entry of the platform whose type matches (the planner, unlike the
filter, does not match on the index). -/
def findStorageSlot (p : Platform) (t : FunctionType) : Option FirmwareModuleSlot :=
  p.firmwareModules.find? fun fm => fm.type = t

/-- The legacy-invalidation steps contributed just before a module's own
DFU step: one step when the module is a user part, the platform declares
a former user-part region and the module's required Device OS version
reaches the threshold; none otherwise. -/
def legacyStepsFor (p : Platform) (m : ParsedModule) : List FlashStep :=
  if m.prefixInfo.moduleFunction = FunctionType.userPart then
    match p.formerUserPart with
    | some r =>
      if DEVICE_OS_MIN_VERSION_TO_FORMAT_128K_USER ≤ m.prefixInfo.depModuleVersion then
        [legacyInvalidationStep r]
      else []
    | none => []
  else []

/-- One module's contribution to the planner's three buckets
`(assetModules, normalModules, dfuModules)`, mirroring the source's
if-chain: assets go to the asset bucket; bootloaders and modules whose
storage slot says `externalMcu` go to the normal bucket; everything else
goes to the DFU bucket, a user part preceded by its legacy-invalidation
step when due.  `none` models the source's `TypeError` when a non-asset,
non-bootloader module type has no slot in the platform profile. -/
def moduleFlashSteps (p : Platform) (m : ParsedModule) :
    Option (List FlashStep × List FlashStep × List FlashStep) :=
  let t := m.prefixInfo.moduleFunction
  if t = FunctionType.asset then
    some ([baseStep m], [], [])
  else if t = FunctionType.bootloader then
    some ([], [baseStep m], [])
  else
    match findStorageSlot p t with
    | none => none
    | some slot =>
      if slot.storage = "externalMcu" then
        some ([], [baseStep m], [])
      else
        some ([], [], legacyStepsFor p m ++ [dfuStep m])

/-- The planner's bucket-building loop (`sortedModules.forEach`),
appending each module's steps to its bucket in input order. -/
def planBuckets (p : Platform) :
    List ParsedModule → Option (List FlashStep × List FlashStep × List FlashStep)
  | [] => some ([], [], [])
  | m :: rest =>
    match moduleFlashSteps p m, planBuckets p rest with
    | some (a₁, n₁, d₁), some (a₂, n₂, d₂) => some (a₁ ++ a₂, n₁ ++ n₂, d₁ ++ d₂)
    | _, _ => none

/-- `createFlashSteps({ modules, isInDfuMode, platformId })` on the
dependency-sorted module list: buckets the modules, then emits the DFU
bucket first when the device is already in DFU mode and the normal
bucket first otherwise, with asset steps last in both cases. -/
def createFlashSteps (p : Platform) (modules : List ParsedModule)
    (isInDfuMode : Bool) : Option (List FlashStep) :=
  match planBuckets p modules with
  | none => none
  | some (assetModules, normalModules, dfuModules) =>
    some (if isInDfuMode then dfuModules ++ normalModules ++ assetModules
          else normalModules ++ dfuModules ++ assetModules)

/-- Whether a step originates from an asset module. -/
def isAssetStep (s : FlashStep) : Bool :=
  match s.moduleInfo with
  | some pi => pi.moduleFunction = FunctionType.asset
  | none => false

/-- The planner's three buckets as a name. -/
inductive Bucket where
  | asset
  | normal
  | dfu
deriving DecidableEq, Repr

/-- The bucket the planner routes a module to (`none` when the module's
type has no storage slot, the case where the source throws). -/
def bucketOf (p : Platform) (m : ParsedModule) : Option Bucket :=
  let t := m.prefixInfo.moduleFunction
  if t = FunctionType.asset then some Bucket.asset
  else if t = FunctionType.bootloader then some Bucket.normal
  else
    match findStorageSlot p t with
    | none => none
    | some slot =>
      if slot.storage = "externalMcu" then some Bucket.normal else some Bucket.dfu

/-- The module's own step in the plan: the DFU variant when the module
is routed to the DFU bucket, the plain normal-mode step otherwise. -/
def ownStep (p : Platform) (m : ParsedModule) : FlashStep :=
  match bucketOf p m with
  | some Bucket.dfu => dfuStep m
  | _ => baseStep m

/-- A step list in which every synthetic legacy-invalidation step (the
only steps carrying no module info) is exactly the legacy step of the
platform's declared former user-part region, and is immediately followed
by the DFU step of a user-part module requiring at least the threshold
Device OS version — the step it guards. -/
def LegacyGuarded (p : Platform) (l : List FlashStep) : Prop :=
  ∀ l₁ s l₂, l = l₁ ++ s :: l₂ → s.moduleInfo = none →
    ∃ r, p.formerUserPart = some r ∧ s = legacyInvalidationStep r ∧
      ∃ pi s₂ l₃, l₂ = s₂ :: l₃ ∧ s₂.moduleInfo = some pi
        ∧ pi.moduleFunction = FunctionType.userPart
        ∧ DEVICE_OS_MIN_VERSION_TO_FORMAT_128K_USER ≤ pi.depModuleVersion
        ∧ s₂.flashMode = FlashMode.dfu

/-- One module's contribution to the DFU bucket (empty when the module
is routed elsewhere). -/
def dfuContribution (p : Platform) (m : ParsedModule) : List FlashStep :=
  if bucketOf p m = some Bucket.dfu then legacyStepsFor p m ++ [dfuStep m] else []

/-! ## Base-Firmware Resolution (`_getDeviceOsBinaries` and
`_pickApplicationBinary`, flash.js lines 314-380)

The remote catalog lookup `api.getDeviceOsVersions(platformID, version)`
is modelled as a function to `Except Unit (Option Nat)`: an `Except.error`
is a rejected lookup (network or catalog failure), `Except.ok none` a
response carrying no version. -/

/-- What base-firmware resolution decides to fetch: nothing, or the
binaries of one version (`omitUserPart` as passed to the downloader). -/
inductive FetchDecision where
  | nothing
  | download (version : Nat) (omitUserPart : Bool)
deriving DecidableEq, Repr

/-- `_pickApplicationBinary(modules, api)`: finds the first user-part
module and resolves its required Device OS version through the catalog,
catching (and discarding) any lookup error. -/
def pickApplicationBinary (api : Nat → Nat → Except Unit (Option Nat)) :
    List ParsedModule → Option ParsedModule × Option Nat
  | [] => (none, none)
  | m :: rest =>
    if m.prefixInfo.moduleFunction = FunctionType.userPart then
      let version :=
        match api m.prefixInfo.platformID m.prefixInfo.depModuleVersion with
        | Except.ok data => data
        | Except.error _ => none
      (some m, version)
    else pickApplicationBinary api rest

/-- `_getDeviceOsBinaries(...)`: the decision cascade of the source,
in source order: included system-part/bootloader binaries win, then a
missing application, then the application-only flag, then an explicit
target version, then the skip flag, then the version comparison. -/
def getDeviceOsBinaries (api : Nat → Nat → Except Unit (Option Nat))
    (skipDeviceOSFlash applicationOnly : Bool)
    (target currentDeviceOsVersion : Option Nat)
    (modules : List ParsedModule) : FetchDecision :=
  let pick := pickApplicationBinary api modules
  let systemPartBinaries := modules.filter fun m =>
    m.prefixInfo.moduleFunction = FunctionType.systemPart
      || m.prefixInfo.moduleFunction = FunctionType.bootloader
  if systemPartBinaries.length ≠ 0 then FetchDecision.nothing
  else if pick.1.isNone then FetchDecision.nothing
  else if applicationOnly then FetchDecision.nothing
  else
    match target with
    | some t => FetchDecision.download t true
    | none =>
      if skipDeviceOSFlash then FetchDecision.nothing
      else
        match pick.2, currentDeviceOsVersion with
        | some appVersion, some current =>
          if current < appVersion then FetchDecision.download appVersion false
          else FetchDecision.nothing
        | _, _ => FetchDecision.nothing

/-- Base-firmware resolution exactly as the specification words its
first-match-wins decision order, over the already-derived facts: whether
the set holds a system or boot-loader module, whether it holds an
application, the two flags, the explicit target, the application's
resolved required version and the device's installed version. -/
def baseFirmwareResolutionSpec (hasBaseModule hasApplication applicationOnly : Bool)
    (target : Option Nat) (skip : Bool)
    (requiredVersion installed : Option Nat) : FetchDecision :=
  if hasBaseModule then FetchDecision.nothing
  else if !hasApplication then FetchDecision.nothing
  else if applicationOnly then FetchDecision.nothing
  else
    match target with
    | some t => FetchDecision.download t true
    | none =>
      if skip then FetchDecision.nothing
      else
        match requiredVersion, installed with
        | some rv, some iv =>
          if iv < rv then FetchDecision.download rv false else FetchDecision.nothing
        | _, _ => FetchDecision.nothing

/-! ## Mode-Switch Executor (`flashFiles`, flash-helper.js lines 13-38,
and `flashOverUsb`, flash.js lines 58-100)

The device handle is modelled as one logical device with an open flag
and a mode flag; reopening in another mode keeps it open.  Device
operations are recorded as a trace of actions.  Write outcomes come
from the `writeOk` oracle; a failed write models a rejected
`updateFirmware`/`writeOverDfu` call.  The fixed settle delay and the
post-write reopen of normal mode are not observable through the claims
and are left out of the trace. -/

/-- The observable device operations. -/
inductive DevAction where
  | enterListening
  | switchToNormal
  | switchToDfu
  | writeNormal (name : String)
  | writeDfu (name : String)
  | reset
  | close
deriving DecidableEq, Repr

/-- The logical device handle's state. -/
structure Dev where
  isOpen : Bool
  isInDfuMode : Bool
deriving DecidableEq, Repr

/-- `flashDeviceInNormalMode`: switch to normal mode when needed, enter
listening mode (failures there are ignored by the source), write. -/
def flashDeviceInNormalMode (writeOk : String → Bool) (dev : Dev) (s : FlashStep) :
    List DevAction × Dev × Option FlashError :=
  let (pre, dev) :=
    if dev.isInDfuMode then ([DevAction.switchToNormal], { dev with isInDfuMode := false })
    else ([], dev)
  let acts := pre ++ [DevAction.enterListening, DevAction.writeNormal s.name]
  if writeOk s.name then (acts, dev, none)
  else (acts, dev, some (FlashError.writeFailure s.name))

/-- `flashDeviceInDfuMode`: switch to DFU mode when needed, write over
DFU at the step's address. -/
def flashDeviceInDfuMode (writeOk : String → Bool) (dev : Dev) (s : FlashStep) :
    List DevAction × Dev × Option FlashError :=
  let (pre, dev) :=
    if !dev.isInDfuMode then ([DevAction.switchToDfu], { dev with isInDfuMode := true })
    else ([], dev)
  let acts := pre ++ [DevAction.writeDfu s.name]
  if writeOk s.name then (acts, dev, none)
  else (acts, dev, some (FlashError.writeFailure s.name))

/-- The step loop of `flashFiles`: each step is written in its mode; the
first failure aborts the remaining steps. -/
def flashLoop (writeOk : String → Bool) (dev : Dev) :
    List FlashStep → List DevAction × Dev × Option FlashError
  | [] => ([], dev, none)
  | s :: rest =>
    let r :=
      match s.flashMode with
      | FlashMode.normal => flashDeviceInNormalMode writeOk dev s
      | FlashMode.dfu => flashDeviceInDfuMode writeOk dev s
    match r with
    | (acts, dev₂, some e) => (acts, dev₂, some e)
    | (acts, dev₂, none) =>
      let (acts₂, dev₃, e₂) := flashLoop writeOk dev₂ rest
      (acts ++ acts₂, dev₃, e₂)

/-- `flashFiles({ device, flashSteps, resetAfterFlash, ui })`: runs the
step loop, then in a `finally` block, when the device is open, resets it
(when requested; reset failures are swallowed) and closes it.  Returns
the trace and the error escaping the try block, if any. -/
def flashFiles (writeOk : String → Bool) (resetAfterFlash : Bool) (dev : Dev)
    (steps : List FlashStep) : List DevAction × Option FlashError :=
  let (acts, devEnd, err) := flashLoop writeOk dev steps
  let cleanup :=
    if devEnd.isOpen then
      (if resetAfterFlash then [DevAction.reset] else []) ++ [DevAction.close]
    else []
  (acts ++ cleanup, err)

/-- The body of `flashOverUsb`'s try block after the device is obtained
and the files parsed: validate the modules, build the flash steps,
compute `resetAfterFlash` from the first module, and flash.  The
outcome is the error the body throws, if any. -/
def flashOverUsbAttempt (p : Platform) (writeOk : String → Bool)
    (modules : List ParsedModule) (dev : Dev) (factory : Bool) :
    List DevAction × Option FlashError :=
  match validateModulesForPlatform p.id modules with
  | Except.error e => ([], some e)
  | Except.ok _ =>
    match createFlashSteps p modules dev.isInDfuMode with
    | none => ([], some FlashError.internalError)
    | some steps =>
      match modules with
      | [] => ([], some FlashError.internalError)
      | m₀ :: _ =>
        let resetAfterFlash :=
          !factory && m₀.prefixInfo.moduleFunction = FunctionType.userPart
        flashFiles writeOk resetAfterFlash dev steps

/-- `flashOverUsb`: the try block above wrapped in the source's catch
block, which closes the device again and does not rethrow, so no error
leaves the function. -/
def flashOverUsb (p : Platform) (writeOk : String → Bool)
    (modules : List ParsedModule) (dev : Dev) (factory : Bool) :
    List DevAction × Option FlashError :=
  let (acts, err) := flashOverUsbAttempt p writeOk modules dev factory
  match err with
  | some _ => (acts ++ [DevAction.close], none)
  | none => (acts, none)

/-- How many times a trace closes the device handle. -/
def countClose (tr : List DevAction) : Nat :=
  tr.count DevAction.close

/-! ## Progress reporting (`_createFlashProgress`, flash-helper.js
lines 40-101)

The handler closure's mutable state and the progress-bar increments it
emits, modelled for the interactive path (the one holding a progress
bar).  An `erased` payload can overshoot the step's payload size because
DFU erases whole sectors; the handler clamps it.  A `flash-file` event
naming no known step models the source dereferencing `undefined` and is
`none`. -/

/-- The progress events of the source's event stream. -/
inductive ProgressEvent where
  | flashFile (filename : String)
  | switchMode (mode : String)
  | erased (bytes : Nat)
  | downloaded (bytes : Nat)
  | finish
deriving DecidableEq, Repr

/-- The handler closure's mutable state. -/
structure ProgressState where
  flashMultiplier : Nat
  eraseSize : Nat
  step : Option FlashStep
deriving DecidableEq, Repr

/-- `NORMAL_MULTIPLIER` of the source: normal-mode bytes count tenfold. -/
def NORMAL_MULTIPLIER : Nat := 10

/-- One call of the progress handler: the new state and the increment
added to the progress bar. -/
def progressHandle (flashSteps : List FlashStep) (st : ProgressState) :
    ProgressEvent → Option (ProgressState × Nat)
  | ProgressEvent.flashFile filename =>
    match flashSteps.find? (fun s => s.name = filename) with
    | none => none
    | some step =>
      some ({ flashMultiplier :=
                if step.flashMode = FlashMode.normal then NORMAL_MULTIPLIER else 1,
              eraseSize := 0,
              step := some step }, 0)
  | ProgressEvent.switchMode _ => some (st, 0)
  | ProgressEvent.erased bytes =>
    match st.step with
    | some step =>
      if step.data.length < st.eraseSize + bytes then
        some ({ st with eraseSize := step.data.length },
          (step.data.length - st.eraseSize) * st.flashMultiplier)
      else
        some ({ st with eraseSize := st.eraseSize + bytes },
          bytes * st.flashMultiplier)
    | none =>
      some ({ st with eraseSize := st.eraseSize + bytes },
        bytes * st.flashMultiplier)
  | ProgressEvent.downloaded bytes => some (st, bytes * st.flashMultiplier)
  | ProgressEvent.finish => some (st, 0)

/-- A sequence of handler calls, accumulating the progress-bar value. -/
def runProgress (flashSteps : List FlashStep) (st : ProgressState) (total : Nat) :
    List ProgressEvent → Option (ProgressState × Nat)
  | [] => some (st, total)
  | ev :: rest =>
    match progressHandle flashSteps st ev with
    | none => none
    | some (st₂, inc) => runProgress flashSteps st₂ (total + inc) rest

/-! ## Concrete sample inputs used by witnesses -/

/-- A sample bootloader module on platform 6 (concrete test input). -/
def sampleBoot : ParsedModule :=
  ⟨"boot.bin", true, ⟨FunctionType.bootloader, 0, 6, 0, 0, 0, 0⟩, [1]⟩

/-- A sample user-part module on platform 6 (concrete test input). -/
def sampleApp : ParsedModule :=
  ⟨"app.bin", true, ⟨FunctionType.userPart, 1, 6, 0, 0, 0, 0⟩, [2]⟩

/-- A sample user-part module requiring Device OS 3200 (concrete test
input). -/
def sampleApp3200 : ParsedModule :=
  ⟨"app32.bin", true, ⟨FunctionType.userPart, 1, 6, 3200, 8, 0, 0⟩, [2]⟩

/-- A second sample user-part module (concrete test input). -/
def sampleApp2 : ParsedModule :=
  ⟨"app2.bin", true, ⟨FunctionType.userPart, 2, 6, 0, 16, 0, 0⟩, [3]⟩

/-- A sample module whose CRC check failed (concrete test input). -/
def sampleBadCrc : ParsedModule :=
  ⟨"bad.bin", false, ⟨FunctionType.userPart, 1, 6, 0, 0, 0, 0⟩, [4]⟩

/-- A sample platform whose bootloader slot is marked encrypted
(concrete test input). -/
def samplePlatformEnc : Platform :=
  ⟨6, [⟨FunctionType.bootloader, 0, true, "internalFlash"⟩], none⟩

/-- A sample platform storing user parts in internal flash, with no
legacy region (concrete test input). -/
def samplePlatform : Platform :=
  ⟨6, [⟨FunctionType.userPart, 1, false, "internalFlash"⟩], none⟩

/-- The sample platform with a 4-byte legacy user-part region at 4096
(concrete test input). -/
def samplePlatformLegacy : Platform :=
  ⟨6, [⟨FunctionType.userPart, 1, false, "internalFlash"⟩], some ⟨4096, 4⟩⟩

/-- A sample flash step with a 4-byte payload (concrete test input). -/
def sampleStep4 : FlashStep :=
  ⟨"a.bin", [0, 0, 0, 0], FlashMode.dfu, some 0, none⟩

/-- The progress-handler state right after a `flash-file` event for
`sampleStep4` in DFU mode (concrete test input). -/
def sampleProgressStart : ProgressState :=
  ⟨1, 0, some sampleStep4⟩

/-! # Theorems -/

/-! ## C4 — the Module Filter -/

/-- C4: the Module Filter returns exactly the modules not satisfying the
spec's drop condition (encrypted slot, or radio-stack/NCP firmware
without override-all); it never returns a module whose platform slot is
marked encrypted; an empty input yields an empty output. -/
theorem filterModulesToFlash_spec (p : Platform) (modules : List ParsedModule)
    (allowAll : Bool) :
    filterModulesToFlash p modules allowAll
        = modules.filter (fun m => !specDropCondition p allowAll m)
      ∧ (∀ m ∈ filterModulesToFlash p modules allowAll, slotEncrypted p m = false)
      ∧ filterModulesToFlash p [] allowAll = [] := by
  refine ⟨?_, ?_, rfl⟩
  · apply List.filter_congr
    intro m _
    simp only [specDropCondition]
    cases h : slotEncrypted p m <;>
      cases hr : decide (m.prefixInfo.moduleFunction = FunctionType.radioStack) <;>
      cases hn : decide (m.prefixInfo.moduleFunction = FunctionType.ncpFirmware) <;>
      cases allowAll <;> simp_all
  · intro m hm
    have hmem := List.of_mem_filter hm
    cases h : slotEncrypted p m
    · rfl
    · simp [h] at hmem

/-- Witness for C4 at a concrete input: a platform with an encrypted
bootloader slot and a module list holding that bootloader and a user
part; only the user part survives. -/
theorem filterModulesToFlash_spec_witness :
    filterModulesToFlash samplePlatformEnc [sampleBoot, sampleApp] false
      = [sampleApp] := by
  have h := filterModulesToFlash_spec samplePlatformEnc [sampleBoot, sampleApp] false
  rw [h.1]
  decide

/-! ## Planner structure lemmas -/

theorem ownStep_moduleInfo (p : Platform) (m : ParsedModule) :
    (ownStep p m).moduleInfo = some m.prefixInfo := by
  unfold ownStep
  cases h : bucketOf p m with
  | none => rfl
  | some b => cases b <;> rfl

theorem moduleFlashSteps_eq_bucket (p : Platform) (m : ParsedModule) :
    moduleFlashSteps p m = (bucketOf p m).map fun b =>
      match b with
      | Bucket.asset => ([ownStep p m], [], [])
      | Bucket.normal => ([], [ownStep p m], [])
      | Bucket.dfu => ([], [], legacyStepsFor p m ++ [ownStep p m]) := by
  by_cases ha : m.prefixInfo.moduleFunction = FunctionType.asset
  · have hB : bucketOf p m = some Bucket.asset := by simp [bucketOf, ha]
    simp [moduleFlashSteps, ha, hB, ownStep]
  · by_cases hb : m.prefixInfo.moduleFunction = FunctionType.bootloader
    · have hB : bucketOf p m = some Bucket.normal := by simp [bucketOf, ha, hb]
      simp [moduleFlashSteps, ha, hb, hB, ownStep]
    · cases hs : findStorageSlot p m.prefixInfo.moduleFunction with
      | none =>
        have hB : bucketOf p m = none := by simp [bucketOf, ha, hb, hs]
        simp [moduleFlashSteps, ha, hb, hs, hB]
      | some slot =>
        by_cases he : slot.storage = "externalMcu"
        · have hB : bucketOf p m = some Bucket.normal := by
            simp [bucketOf, ha, hb, hs, he]
          simp [moduleFlashSteps, ha, hb, hs, he, hB, ownStep]
        · have hB : bucketOf p m = some Bucket.dfu := by
            simp [bucketOf, ha, hb, hs, he]
          simp [moduleFlashSteps, ha, hb, hs, he, hB, ownStep]

theorem planBuckets_eq (p : Platform) (mods : List ParsedModule)
    (a n d : List FlashStep) (h : planBuckets p mods = some (a, n, d)) :
    a = (mods.filter fun m => bucketOf p m = some Bucket.asset).map (ownStep p)
    ∧ n = (mods.filter fun m => bucketOf p m = some Bucket.normal).map (ownStep p)
    ∧ d = mods.flatMap (dfuContribution p) := by
  induction mods generalizing a n d with
  | nil =>
    simp only [planBuckets, Option.some.injEq, Prod.mk.injEq] at h
    obtain ⟨h1, h2, h3⟩ := h
    simp [h1.symm, h2.symm, h3.symm]
  | cons m rest ih =>
    rw [planBuckets] at h
    cases hm : moduleFlashSteps p m with
    | none => rw [hm] at h; simp at h
    | some t =>
      obtain ⟨a₁, n₁, d₁⟩ := t
      cases hr : planBuckets p rest with
      | none => rw [hm, hr] at h; simp at h
      | some t₂ =>
        obtain ⟨a₂, n₂, d₂⟩ := t₂
        rw [hm, hr] at h
        simp only [Option.some.injEq, Prod.mk.injEq] at h
        obtain ⟨ha, hn, hd⟩ := h
        obtain ⟨ia, inn, idd⟩ := ih a₂ n₂ d₂ hr
        rw [moduleFlashSteps_eq_bucket] at hm
        cases hbm : bucketOf p m with
        | none => rw [hbm] at hm; simp at hm
        | some b =>
          rw [hbm] at hm
          simp only [Option.map_some', Option.some.injEq] at hm
          cases b <;>
            simp only [Prod.mk.injEq] at hm <;>
            obtain ⟨e1, e2, e3⟩ := hm <;>
            refine ⟨?_, ?_, ?_⟩ <;>
            simp [← ha, ← hn, ← hd, ← e1, ← e2, ← e3, ia, inn, idd,
              List.filter_cons, hbm, dfuContribution, ownStep]

theorem bucketOf_asset_iff (p : Platform) (m : ParsedModule) :
    bucketOf p m = some Bucket.asset ↔
      m.prefixInfo.moduleFunction = FunctionType.asset := by
  constructor
  · intro h
    by_contra ha
    by_cases hb : m.prefixInfo.moduleFunction = FunctionType.bootloader
    · simp [bucketOf, ha, hb] at h
    · cases hs : findStorageSlot p m.prefixInfo.moduleFunction with
      | none => simp [bucketOf, ha, hb, hs] at h
      | some slot =>
        by_cases he : slot.storage = "externalMcu" <;>
          simp [bucketOf, ha, hb, hs, he] at h
  · intro h
    simp [bucketOf, h]

theorem mem_legacyStepsFor (p : Platform) (m : ParsedModule) (s : FlashStep)
    (h : s ∈ legacyStepsFor p m) :
    ∃ r, p.formerUserPart = some r ∧ s = legacyInvalidationStep r
      ∧ m.prefixInfo.moduleFunction = FunctionType.userPart
      ∧ DEVICE_OS_MIN_VERSION_TO_FORMAT_128K_USER ≤ m.prefixInfo.depModuleVersion := by
  unfold legacyStepsFor at h
  by_cases hu : m.prefixInfo.moduleFunction = FunctionType.userPart
  · rw [if_pos hu] at h
    cases hr : p.formerUserPart with
    | none => rw [hr] at h; simp at h
    | some r =>
      rw [hr] at h
      dsimp only at h
      by_cases hv : DEVICE_OS_MIN_VERSION_TO_FORMAT_128K_USER ≤ m.prefixInfo.depModuleVersion
      · rw [if_pos hv] at h
        simp only [List.mem_singleton] at h
        exact ⟨r, rfl, h, hu, hv⟩
      · rw [if_neg hv] at h; simp at h
  · rw [if_neg hu] at h; simp at h

theorem isAssetStep_ownStep (p : Platform) (m : ParsedModule) :
    isAssetStep (ownStep p m)
      = decide (m.prefixInfo.moduleFunction = FunctionType.asset) := by
  simp [isAssetStep, ownStep_moduleInfo p m]

/-! ## C1 — planner output order -/

/-- C1: when the device is already in DFU (bulk) mode the planner emits
the DFU bucket, then the normal bucket, then the asset bucket, and
otherwise the normal bucket, then the DFU bucket, then the asset bucket;
in both cases the steps originating from asset modules form the final
segment of the output, after every non-asset step. -/
theorem createFlashSteps_mode_order (p : Platform) (mods : List ParsedModule)
    (isInDfuMode : Bool) (out : List FlashStep)
    (h : createFlashSteps p mods isInDfuMode = some out) :
    (∃ a n d, planBuckets p mods = some (a, n, d)
      ∧ out = if isInDfuMode then d ++ n ++ a else n ++ d ++ a)
    ∧ out.filter (fun s => !isAssetStep s) ++ out.filter (fun s => isAssetStep s)
        = out := by
  unfold createFlashSteps at h
  cases hb : planBuckets p mods with
  | none => rw [hb] at h; simp at h
  | some t =>
    obtain ⟨a, n, d⟩ := t
    rw [hb] at h
    simp only [Option.some.injEq] at h
    obtain ⟨ha, hn, hd⟩ := planBuckets_eq p mods a n d hb
    have hassetA : ∀ s ∈ a, isAssetStep s = true := by
      intro s hs
      rw [ha] at hs
      obtain ⟨m, hm, rfl⟩ := List.mem_map.mp hs
      have hmb := (List.mem_filter.mp hm).2
      rw [isAssetStep_ownStep]
      simp only [decide_eq_true_eq]
      exact (bucketOf_asset_iff p m).mp (by simpa using hmb)
    have hassetN : ∀ s ∈ n, isAssetStep s = false := by
      intro s hs
      rw [hn] at hs
      obtain ⟨m, hm, rfl⟩ := List.mem_map.mp hs
      have hmb : bucketOf p m = some Bucket.normal := by
        simpa using (List.mem_filter.mp hm).2
      rw [isAssetStep_ownStep]
      simp only [decide_eq_false_iff_not]
      intro hc
      rw [(bucketOf_asset_iff p m).mpr hc] at hmb
      simp at hmb
    have hassetD : ∀ s ∈ d, isAssetStep s = false := by
      intro s hs
      rw [hd] at hs
      obtain ⟨m, hm, hsm⟩ := List.mem_flatMap.mp hs
      unfold dfuContribution at hsm
      by_cases hdm : bucketOf p m = some Bucket.dfu
      · rw [if_pos hdm] at hsm
        rcases List.mem_append.mp hsm with hleg | hown
        · obtain ⟨r, _, rfl, _, _⟩ := mem_legacyStepsFor p m s hleg
          rfl
        · simp only [List.mem_singleton] at hown
          subst hown
          have hown2 : dfuStep m = ownStep p m := by unfold ownStep; rw [hdm]
          rw [hown2, isAssetStep_ownStep]
          simp only [decide_eq_false_iff_not]
          intro hc
          rw [(bucketOf_asset_iff p m).mpr hc] at hdm
          simp at hdm
      · rw [if_neg hdm] at hsm; simp at hsm
    refine ⟨⟨a, n, d, rfl, h.symm⟩, ?_⟩
    have fa1 : a.filter (fun s => !isAssetStep s) = [] := by
      rw [List.filter_eq_nil_iff]
      intro s hs
      simp [hassetA s hs]
    have fa2 : a.filter (fun s => isAssetStep s) = a := by
      rw [List.filter_eq_self]
      intro s hs
      simp [hassetA s hs]
    have fn1 : n.filter (fun s => !isAssetStep s) = n := by
      rw [List.filter_eq_self]
      intro s hs
      simp [hassetN s hs]
    have fn2 : n.filter (fun s => isAssetStep s) = [] := by
      rw [List.filter_eq_nil_iff]
      intro s hs
      simp [hassetN s hs]
    have fd1 : d.filter (fun s => !isAssetStep s) = d := by
      rw [List.filter_eq_self]
      intro s hs
      simp [hassetD s hs]
    have fd2 : d.filter (fun s => isAssetStep s) = [] := by
      rw [List.filter_eq_nil_iff]
      intro s hs
      simp [hassetD s hs]
    cases isInDfuMode <;>
      simp only [if_true, if_false, Bool.false_eq_true] at h ⊢ <;>
      rw [← h] <;>
      simp [List.filter_append, fa1, fa2, fn1, fn2, fd1, fd2]

/-- Witness for C1 at the spec's bulk-mode scenario: device in DFU mode,
modules bootloader (normal bucket) and user part (DFU bucket); the plan
is the user-part step first, then the bootloader step. -/
theorem createFlashSteps_mode_order_witness :
    (∃ a n d, planBuckets samplePlatform [sampleBoot, sampleApp] = some (a, n, d)
      ∧ [dfuStep sampleApp, baseStep sampleBoot]
          = if true then d ++ n ++ a else n ++ d ++ a)
    ∧ ([dfuStep sampleApp, baseStep sampleBoot].filter (fun s => !isAssetStep s))
        ++ ([dfuStep sampleApp, baseStep sampleBoot].filter (fun s => isAssetStep s))
        = [dfuStep sampleApp, baseStep sampleBoot] :=
  createFlashSteps_mode_order samplePlatform [sampleBoot, sampleApp] true
    [dfuStep sampleApp, baseStep sampleBoot] (by decide)

/-! ## C2 — legacy-invalidation step -/

theorem dfuStep_moduleInfo (m : ParsedModule) :
    (dfuStep m).moduleInfo = some m.prefixInfo := rfl

theorem legacyGuarded_of_no_none (p : Platform) (l : List FlashStep)
    (h : ∀ s ∈ l, s.moduleInfo ≠ none) : LegacyGuarded p l := by
  intro l₁ s l₂ heq hnone
  refine absurd hnone (h s ?_)
  rw [heq]
  exact List.mem_append.mpr (Or.inr (List.mem_cons_self s l₂))

theorem legacyGuarded_append (p : Platform) (l₁ l₂ : List FlashStep)
    (h₁ : LegacyGuarded p l₁) (h₂ : LegacyGuarded p l₂) :
    LegacyGuarded p (l₁ ++ l₂) := by
  intro u s v heq hnone
  rcases List.append_eq_append_iff.mp heq with ⟨w, hu, hl⟩ | ⟨w, hl, hv⟩
  · exact h₂ w s v hl hnone
  · cases w with
    | nil =>
      rw [List.nil_append] at hv
      exact h₂ [] s v (by rw [List.nil_append, ← hv]) hnone
    | cons y u₂ =>
      rw [List.cons_append] at hv
      simp only [List.cons.injEq] at hv
      obtain ⟨hy, hv2⟩ := hv
      obtain ⟨r, hr, hsl, pi, s₂, l₃, hw, hmi, hfu, hver, hfm⟩ :=
        h₁ u y u₂ (by rw [hl]) (hy ▸ hnone)
      refine ⟨r, hr, by rw [hy, hsl], pi, s₂, l₃ ++ l₂, ?_, hmi, hfu, hver, hfm⟩
      rw [hv2, hw, List.cons_append]

theorem legacyGuarded_dfuContribution (p : Platform) (m : ParsedModule) :
    LegacyGuarded p (dfuContribution p m) := by
  unfold dfuContribution
  by_cases hdm : bucketOf p m = some Bucket.dfu
  · rw [if_pos hdm]
    unfold legacyStepsFor
    by_cases hu : m.prefixInfo.moduleFunction = FunctionType.userPart
    · rw [if_pos hu]
      cases hr : p.formerUserPart with
      | none =>
        dsimp only
        apply legacyGuarded_of_no_none
        intro s hs
        rw [List.nil_append, List.mem_singleton] at hs
        subst hs
        simp [dfuStep, baseStep]
      | some r =>
        dsimp only
        by_cases hv : DEVICE_OS_MIN_VERSION_TO_FORMAT_128K_USER ≤ m.prefixInfo.depModuleVersion
        · rw [if_pos hv]
          intro l₁ s l₂ heq hnone
          rw [List.singleton_append] at heq
          cases l₁ with
          | nil =>
            rw [List.nil_append] at heq
            simp only [List.cons.injEq] at heq
            obtain ⟨h1, h2⟩ := heq
            subst h1
            exact ⟨r, hr, rfl, m.prefixInfo, dfuStep m, [], h2.symm, rfl, hu, hv, rfl⟩
          | cons x t =>
            rw [List.cons_append] at heq
            simp only [List.cons.injEq] at heq
            obtain ⟨hx, heq2⟩ := heq
            cases t with
            | nil =>
              rw [List.nil_append] at heq2
              simp only [List.cons.injEq] at heq2
              obtain ⟨hs, _⟩ := heq2
              rw [← hs] at hnone
              simp [dfuStep, baseStep] at hnone
            | cons y u =>
              rw [List.cons_append] at heq2
              simp only [List.cons.injEq] at heq2
              obtain ⟨_, habs⟩ := heq2
              simp at habs
        · rw [if_neg hv]
          apply legacyGuarded_of_no_none
          intro s hs
          rw [List.nil_append, List.mem_singleton] at hs
          subst hs
          simp [dfuStep, baseStep]
    · rw [if_neg hu]
      apply legacyGuarded_of_no_none
      intro s hs
      rw [List.nil_append, List.mem_singleton] at hs
      subst hs
      simp [dfuStep, baseStep]
  · rw [if_neg hdm]
    intro l₁ s l₂ heq hnone
    simp at heq

theorem legacyGuarded_flatMap (p : Platform) (mods : List ParsedModule) :
    LegacyGuarded p (mods.flatMap (dfuContribution p)) := by
  induction mods with
  | nil =>
    intro l₁ s l₂ heq hnone
    simp at heq
  | cons m rest ih =>
    rw [List.flatMap_cons]
    exact legacyGuarded_append p _ _ (legacyGuarded_dfuContribution p m) ih

/-- C2: the planner output contains a synthetic step (one carrying no
module info) iff the platform declares a former user-part region and
some user-part module requires at least Device OS 3103; and the output
is `LegacyGuarded`: every synthetic step is exactly the legacy
invalidation step of the declared region (DFU mode, the region's
address, the region's size of 0xFF bytes) and immediately precedes the
DFU step of the user-part module it guards.  The hypothesis `hup` says
user-part modules are stored in internal flash, as on every real
platform profile (a user part routed to an external MCU would bypass
the legacy check). -/
theorem createFlashSteps_legacy_invalidation (p : Platform)
    (mods : List ParsedModule) (isInDfuMode : Bool) (out : List FlashStep)
    (h : createFlashSteps p mods isInDfuMode = some out)
    (hup : ∀ m ∈ mods, m.prefixInfo.moduleFunction = FunctionType.userPart →
      bucketOf p m = some Bucket.dfu) :
    ((∃ s ∈ out, s.moduleInfo = none) ↔
      ((∃ r, p.formerUserPart = some r)
        ∧ ∃ m ∈ mods, m.prefixInfo.moduleFunction = FunctionType.userPart
          ∧ DEVICE_OS_MIN_VERSION_TO_FORMAT_128K_USER ≤ m.prefixInfo.depModuleVersion))
    ∧ LegacyGuarded p out := by
  unfold createFlashSteps at h
  cases hbk : planBuckets p mods with
  | none => rw [hbk] at h; simp at h
  | some t =>
    obtain ⟨a, n, d⟩ := t
    rw [hbk] at h
    simp only [Option.some.injEq] at h
    obtain ⟨ha, hn, hd⟩ := planBuckets_eq p mods a n d hbk
    have hmapA : ∀ s ∈ a, s.moduleInfo ≠ none := by
      intro s hs
      rw [ha] at hs
      obtain ⟨m, _, rfl⟩ := List.mem_map.mp hs
      simp [ownStep_moduleInfo]
    have hmapN : ∀ s ∈ n, s.moduleInfo ≠ none := by
      intro s hs
      rw [hn] at hs
      obtain ⟨m, _, rfl⟩ := List.mem_map.mp hs
      simp [ownStep_moduleInfo]
    have gA : LegacyGuarded p a := legacyGuarded_of_no_none p a hmapA
    have gN : LegacyGuarded p n := legacyGuarded_of_no_none p n hmapN
    have gD : LegacyGuarded p d := hd ▸ legacyGuarded_flatMap p mods
    have gOut : LegacyGuarded p out := by
      rw [← h]
      cases isInDfuMode <;>
        simp only [if_true, if_false, Bool.false_eq_true] <;>
        exact legacyGuarded_append p _ _ (legacyGuarded_append p _ _ (by assumption) (by assumption)) (by assumption)
    refine ⟨⟨?_, ?_⟩, gOut⟩
    · rintro ⟨s, hs, hnone⟩
      have hsplit : s ∈ a ∨ s ∈ n ∨ s ∈ d := by
        rw [← h] at hs
        cases isInDfuMode <;>
          simp only [if_true, if_false, Bool.false_eq_true] at hs <;>
          simp only [List.mem_append] at hs <;> tauto
      have hsd : s ∈ d := by
        rcases hsplit with h1 | h2 | h3
        · exact absurd hnone (hmapA s h1)
        · exact absurd hnone (hmapN s h2)
        · exact h3
      rw [hd] at hsd
      obtain ⟨m, hm, hsm⟩ := List.mem_flatMap.mp hsd
      unfold dfuContribution at hsm
      by_cases hdm : bucketOf p m = some Bucket.dfu
      · rw [if_pos hdm] at hsm
        rcases List.mem_append.mp hsm with hleg | hown
        · obtain ⟨r, hr, _, hu2, hv2⟩ := mem_legacyStepsFor p m s hleg
          exact ⟨⟨r, hr⟩, m, hm, hu2, hv2⟩
        · rw [List.mem_singleton] at hown
          subst hown
          simp [dfuStep, baseStep] at hnone
      · rw [if_neg hdm] at hsm; simp at hsm
    · rintro ⟨⟨r, hr⟩, m, hm, hu2, hv2⟩
      have hdm : bucketOf p m = some Bucket.dfu := hup m hm hu2
      have hleg : legacyInvalidationStep r ∈ d := by
        rw [hd]
        apply List.mem_flatMap.mpr
        refine ⟨m, hm, ?_⟩
        unfold dfuContribution
        rw [if_pos hdm]
        apply List.mem_append.mpr
        left
        simp [legacyStepsFor, hu2, hr, hv2]
      refine ⟨legacyInvalidationStep r, ?_, rfl⟩
      rw [← h]
      cases isInDfuMode <;>
        simp only [if_true, if_false, Bool.false_eq_true] <;>
        simp only [List.mem_append] <;> tauto

/-- Witness for C2 at a concrete input: a platform with a 4-byte legacy
region and a user part requiring Device OS 3200; the plan contains the
synthetic invalidation step. -/
theorem createFlashSteps_legacy_invalidation_witness :
    ∃ s ∈ [legacyInvalidationStep ⟨4096, 4⟩, dfuStep sampleApp3200],
      s.moduleInfo = none :=
  (createFlashSteps_legacy_invalidation samplePlatformLegacy [sampleApp3200] false
    [legacyInvalidationStep ⟨4096, 4⟩, dfuStep sampleApp3200]
    (by decide) (by decide)).1.mpr
    ⟨⟨⟨4096, 4⟩, rfl⟩, sampleApp3200, by decide, by decide, by decide⟩

/-! ## C3 — order preservation within a bucket -/

theorem pair_sublist_of_lt {α : Type} (l : List α) (i j : Nat)
    (hi : i < l.length) (hj : j < l.length) (hij : i < j) :
    List.Sublist [l.get ⟨i, hi⟩, l.get ⟨j, hj⟩] l := by
  induction l generalizing i j with
  | nil => simp at hi
  | cons x xs ih =>
    cases i with
    | zero =>
      cases j with
      | zero => omega
      | succ j₂ =>
        simp only [List.get]
        apply List.Sublist.cons₂
        rw [List.singleton_sublist]
        exact List.get_mem xs _ _
    | succ i₂ =>
      cases j with
      | zero => omega
      | succ j₂ =>
        simp only [List.get]
        exact List.Sublist.cons x
          (ih i₂ j₂ (Nat.lt_of_succ_lt_succ hi) (Nat.lt_of_succ_lt_succ hj)
            (Nat.lt_of_succ_lt_succ hij))

theorem mapOwn_sublist_flatMap (p : Platform) (mods : List ParsedModule) :
    List.Sublist
      ((mods.filter fun m => bucketOf p m = some Bucket.dfu).map (ownStep p))
      (mods.flatMap (dfuContribution p)) := by
  induction mods with
  | nil => simp
  | cons m rest ih =>
    rw [List.flatMap_cons]
    by_cases hdm : bucketOf p m = some Bucket.dfu
    · have hf : (m :: rest).filter (fun m => bucketOf p m = some Bucket.dfu)
          = m :: rest.filter (fun m => bucketOf p m = some Bucket.dfu) := by
        simp [List.filter_cons, hdm]
      rw [hf, List.map_cons]
      have hown : ownStep p m = dfuStep m := by unfold ownStep; rw [hdm]
      have h1 : List.Sublist
          (ownStep p m :: (rest.filter fun m => bucketOf p m = some Bucket.dfu).map (ownStep p))
          ([dfuStep m] ++ rest.flatMap (dfuContribution p)) := by
        rw [List.singleton_append, hown]
        exact List.Sublist.cons₂ _ ih
      have h2 : dfuContribution p m ++ rest.flatMap (dfuContribution p)
          = legacyStepsFor p m ++ ([dfuStep m] ++ rest.flatMap (dfuContribution p)) := by
        unfold dfuContribution
        rw [if_pos hdm, List.append_assoc]
      rw [h2]
      exact h1.trans (List.sublist_append_right _ _)
    · have hf : (m :: rest).filter (fun m => bucketOf p m = some Bucket.dfu)
          = rest.filter (fun m => bucketOf p m = some Bucket.dfu) := by
        simp [List.filter_cons, hdm]
      rw [hf]
      have h2 : dfuContribution p m = [] := by
        unfold dfuContribution
        rw [if_neg hdm]
      rw [h2, List.nil_append]
      exact ih

/-- C3: the planner preserves the dependency sorter's order inside each
bucket: for two modules of the sorted input routed to the same bucket,
the earlier module's own step occurs before the later module's own step
in the final plan (so a module's dependencies, which the sorter placed
earlier, have their steps earlier in the bucket, never later). -/
theorem createFlashSteps_preserves_module_order (p : Platform)
    (mods : List ParsedModule) (isInDfuMode : Bool) (out : List FlashStep)
    (h : createFlashSteps p mods isInDfuMode = some out)
    (i j : Nat) (hi : i < mods.length) (hj : j < mods.length) (hij : i < j)
    (b : Bucket)
    (hbi : bucketOf p (mods.get ⟨i, hi⟩) = some b)
    (hbj : bucketOf p (mods.get ⟨j, hj⟩) = some b) :
    List.Sublist
      [ownStep p (mods.get ⟨i, hi⟩), ownStep p (mods.get ⟨j, hj⟩)] out := by
  unfold createFlashSteps at h
  cases hbk : planBuckets p mods with
  | none => rw [hbk] at h; simp at h
  | some t =>
    obtain ⟨a, n, d⟩ := t
    rw [hbk] at h
    simp only [Option.some.injEq] at h
    obtain ⟨ha, hn, hd⟩ := planBuckets_eq p mods a n d hbk
    have hpair : List.Sublist [mods.get ⟨i, hi⟩, mods.get ⟨j, hj⟩] mods :=
      pair_sublist_of_lt mods i j hi hj hij
    have hfilter : List.Sublist [mods.get ⟨i, hi⟩, mods.get ⟨j, hj⟩]
        (mods.filter fun m => bucketOf p m = some b) := by
      have h2 := hpair.filter (fun m => bucketOf p m = some b)
      rw [List.filter_cons, List.filter_cons, List.filter_nil] at h2
      rw [hbi, hbj] at h2
      simpa using h2
    have hmap : List.Sublist
        [ownStep p (mods.get ⟨i, hi⟩), ownStep p (mods.get ⟨j, hj⟩)]
        ((mods.filter fun m => bucketOf p m = some b).map (ownStep p)) := by
      have h3 := hfilter.map (ownStep p)
      simpa using h3
    refine hmap.trans ?_
    cases b with
    | asset =>
      rw [← h, ← ha]
      cases isInDfuMode <;>
        simp only [if_true, if_false, Bool.false_eq_true] <;>
        exact List.sublist_append_right _ a
    | normal =>
      rw [← h, ← hn]
      cases isInDfuMode with
      | true =>
        simp only [if_true]
        exact (List.sublist_append_right d n).trans
          (List.sublist_append_left (d ++ n) a)
      | false =>
        simp only [Bool.false_eq_true, if_false]
        exact (List.sublist_append_left n d).trans
          (List.sublist_append_left (n ++ d) a)
    | dfu =>
      have hsub : List.Sublist
          ((mods.filter fun m => bucketOf p m = some Bucket.dfu).map (ownStep p)) d := by
        rw [hd]
        exact mapOwn_sublist_flatMap p mods
      rw [← h]
      cases isInDfuMode with
      | true =>
        simp only [if_true]
        exact hsub.trans ((List.sublist_append_left d n).trans
          (List.sublist_append_left (d ++ n) a))
      | false =>
        simp only [Bool.false_eq_true, if_false]
        exact hsub.trans ((List.sublist_append_right n d).trans
          (List.sublist_append_left (n ++ d) a))

/-- Witness for C3 at a concrete input: two user-part modules, both in
the DFU bucket; their steps keep the input order in the plan. -/
theorem createFlashSteps_preserves_module_order_witness :
    List.Sublist [ownStep samplePlatform sampleApp, ownStep samplePlatform sampleApp2]
      [dfuStep sampleApp, dfuStep sampleApp2] :=
  createFlashSteps_preserves_module_order samplePlatform [sampleApp, sampleApp2]
    false [dfuStep sampleApp, dfuStep sampleApp2] (by decide) 0 1 (by decide)
    (by decide) (by decide) Bucket.dfu (by decide) (by decide)

/-! ## C5 — the Module Validator -/

/-- C5: the validator succeeds iff every module passes both checks; on
failure it reports the first failing module's error — `CrcMismatch` for
a failed checksum, else `PlatformMismatch` for a platform-id mismatch on
a non-asset module — with every earlier module passing; and a validation
failure in the USB flash pipeline leaves a device trace holding only the
cleanup close: no write and no mode switch is attempted. -/
theorem validateModulesForPlatform_spec (platformId : Nat)
    (modules : List ParsedModule) :
    (validateModulesForPlatform platformId modules = Except.ok () ↔
      ∀ m ∈ modules, moduleValidationError platformId m = none)
    ∧ (∀ e, validateModulesForPlatform platformId modules = Except.error e →
        ∃ pre m post, modules = pre ++ m :: post
          ∧ (∀ m₂ ∈ pre, moduleValidationError platformId m₂ = none)
          ∧ moduleValidationError platformId m = some e)
    ∧ (∀ (p : Platform) (writeOk : String → Bool) (dev : Dev) (factory : Bool)
        (e : FlashError),
        validateModulesForPlatform p.id modules = Except.error e →
        (flashOverUsb p writeOk modules dev factory).1 = [DevAction.close]) := by
  refine ⟨?_, ?_, ?_⟩
  · induction modules with
    | nil => simp [validateModulesForPlatform]
    | cons m rest ih =>
      rw [validateModulesForPlatform]
      by_cases hc : m.crcOk
      · by_cases hp : m.prefixInfo.platformID ≠ platformId
            ∧ m.prefixInfo.moduleFunction ≠ FunctionType.asset
        · rw [if_neg (by simp [hc]), if_pos hp]
          constructor
          · intro h; exact absurd h (by simp)
          · intro h
            have h2 := h m (List.mem_cons_self m rest)
            rw [moduleValidationError, if_neg (by simp [hc]), if_pos hp] at h2
            simp at h2
        · rw [if_neg (by simp [hc]), if_neg hp]
          rw [ih]
          constructor
          · intro h m₂ hm₂
            rcases List.mem_cons.mp hm₂ with rfl | hm₂r
            · rw [moduleValidationError, if_neg (by simp [hc]), if_neg hp]
            · exact h m₂ hm₂r
          · intro h m₂ hm₂
            exact h m₂ (List.mem_cons_of_mem m hm₂)
      · rw [if_pos (by simp [hc])]
        constructor
        · intro h; exact absurd h (by simp)
        · intro h
          have h2 := h m (List.mem_cons_self m rest)
          rw [moduleValidationError, if_pos (by simp [hc])] at h2
          simp at h2
  · induction modules with
    | nil => intro e h; simp [validateModulesForPlatform] at h
    | cons m rest ih =>
      intro e h
      rw [validateModulesForPlatform] at h
      by_cases hc : m.crcOk
      · by_cases hp : m.prefixInfo.platformID ≠ platformId
            ∧ m.prefixInfo.moduleFunction ≠ FunctionType.asset
        · rw [if_neg (by simp [hc]), if_pos hp] at h
          simp only [Except.error.injEq] at h
          refine ⟨[], m, rest, by simp, by simp, ?_⟩
          rw [moduleValidationError, if_neg (by simp [hc]), if_pos hp, h]
        · rw [if_neg (by simp [hc]), if_neg hp] at h
          obtain ⟨pre, m₂, post, hsplit, hpre, herr⟩ := ih e h
          refine ⟨m :: pre, m₂, post, by rw [hsplit, List.cons_append], ?_, herr⟩
          intro m₃ hm₃
          rcases List.mem_cons.mp hm₃ with rfl | hm₃r
          · rw [moduleValidationError, if_neg (by simp [hc]), if_neg hp]
          · exact hpre m₃ hm₃r
      · rw [if_pos (by simp [hc])] at h
        simp only [Except.error.injEq] at h
        refine ⟨[], m, rest, by simp, by simp, ?_⟩
        rw [moduleValidationError, if_pos (by simp [hc]), h]
  · intro p writeOk dev factory e h
    simp [flashOverUsb, flashOverUsbAttempt, h]

/-- Witness for C5 at a concrete input: one module with a failed CRC;
the validator reports it and the USB pipeline's trace is only the
cleanup close. -/
theorem validateModulesForPlatform_spec_witness :
    (∃ pre m post, [sampleBadCrc] = pre ++ m :: post
      ∧ (∀ m₂ ∈ pre, moduleValidationError 6 m₂ = none)
      ∧ moduleValidationError 6 m = some (FlashError.crcMismatch "bad.bin"))
    ∧ (flashOverUsb samplePlatform (fun _ => true) [sampleBadCrc] ⟨true, false⟩ false).1
        = [DevAction.close] :=
  ⟨(validateModulesForPlatform_spec 6 [sampleBadCrc]).2.1
      (FlashError.crcMismatch "bad.bin") rfl,
   (validateModulesForPlatform_spec 6 [sampleBadCrc]).2.2 samplePlatform
      (fun _ => true) ⟨true, false⟩ false (FlashError.crcMismatch "bad.bin")
      rfl⟩

/-! ## C6, C7 — Base-Firmware Resolution -/

theorem filter_length_ne_zero_iff_any {α : Type} (l : List α) (q : α → Bool) :
    ((l.filter q).length ≠ 0) ↔ l.any q = true := by
  rw [Ne, List.length_eq_zero, List.filter_eq_nil_iff]
  simp [List.any_eq_true]

theorem pickApplicationBinary_fst_isNone (api : Nat → Nat → Except Unit (Option Nat))
    (mods : List ParsedModule) :
    (pickApplicationBinary api mods).1.isNone
      = !(mods.any fun m => m.prefixInfo.moduleFunction = FunctionType.userPart) := by
  induction mods with
  | nil => rfl
  | cons m rest ih =>
    rw [pickApplicationBinary, List.any_cons]
    by_cases hu : m.prefixInfo.moduleFunction = FunctionType.userPart
    · rw [if_pos hu]
      simp [hu]
    · rw [if_neg hu]
      simp [hu, ih]

theorem pickApplicationBinary_fst_api_irrelevant
    (api₁ api₂ : Nat → Nat → Except Unit (Option Nat)) (mods : List ParsedModule) :
    (pickApplicationBinary api₁ mods).1 = (pickApplicationBinary api₂ mods).1 := by
  induction mods with
  | nil => rfl
  | cons m rest ih =>
    rw [pickApplicationBinary, pickApplicationBinary]
    by_cases hu : m.prefixInfo.moduleFunction = FunctionType.userPart
    · rw [if_pos hu, if_pos hu]
    · rw [if_neg hu, if_neg hu]
      exact ih

theorem pickApplicationBinary_snd_none (api : Nat → Nat → Except Unit (Option Nat))
    (hapi : ∀ a b, (match api a b with
      | Except.ok d => d
      | Except.error _ => none) = (none : Option Nat))
    (mods : List ParsedModule) :
    (pickApplicationBinary api mods).2 = none := by
  induction mods with
  | nil => rfl
  | cons m rest ih =>
    rw [pickApplicationBinary]
    by_cases hu : m.prefixInfo.moduleFunction = FunctionType.userPart
    · rw [if_pos hu]
      exact hapi _ _
    · rw [if_neg hu]
      exact ih

/-- C6: base-firmware resolution equals the specification's
first-match-wins decision cascade at every input: included
system-part/boot-loader binaries make it fetch nothing regardless of
versions; then a missing application, the application-only flag, an
explicit target version, the skip flag, and finally the strict
installed-older-than-required comparison decide, in that order. -/
theorem getDeviceOsBinaries_follows_spec_order
    (api : Nat → Nat → Except Unit (Option Nat))
    (skipDeviceOSFlash applicationOnly : Bool)
    (target currentDeviceOsVersion : Option Nat) (modules : List ParsedModule) :
    getDeviceOsBinaries api skipDeviceOSFlash applicationOnly target
        currentDeviceOsVersion modules
      = baseFirmwareResolutionSpec
          (modules.any fun m =>
            m.prefixInfo.moduleFunction = FunctionType.systemPart
              || m.prefixInfo.moduleFunction = FunctionType.bootloader)
          (modules.any fun m => m.prefixInfo.moduleFunction = FunctionType.userPart)
          applicationOnly target skipDeviceOSFlash
          (pickApplicationBinary api modules).2 currentDeviceOsVersion := by
  unfold getDeviceOsBinaries baseFirmwareResolutionSpec
  cases hsys : (modules.any fun m =>
      m.prefixInfo.moduleFunction = FunctionType.systemPart
        || m.prefixInfo.moduleFunction = FunctionType.bootloader) with
  | true =>
    rw [if_pos ((filter_length_ne_zero_iff_any modules _).mpr hsys)]
    simp
  | false =>
    rw [if_neg (by rw [filter_length_ne_zero_iff_any]; simp [hsys])]
    simp only [Bool.false_eq_true, if_false]
    cases happ : (modules.any fun m =>
        m.prefixInfo.moduleFunction = FunctionType.userPart) with
    | true =>
      have hn : (pickApplicationBinary api modules).1.isNone = false := by
        rw [pickApplicationBinary_fst_isNone, happ]
        rfl
      rw [if_neg (by simp [hn])]
      simp
    | false =>
      have hn : (pickApplicationBinary api modules).1.isNone = true := by
        rw [pickApplicationBinary_fst_isNone, happ]
        rfl
      rw [if_pos hn]
      simp

/-- C7: a failing remote-catalog lookup is caught inside the
application-binary pick, whose resolved version is then absent; the
whole resolution behaves exactly as with a catalog that answers with no
version, and with no explicit target it fetches nothing — the lookup
failure never propagates (the resolution function is total). -/
theorem versionLookupFailure_nonfatal (api : Nat → Nat → Except Unit (Option Nat))
    (hapi : ∀ a b, api a b = Except.error ())
    (skipDeviceOSFlash applicationOnly : Bool)
    (target currentDeviceOsVersion : Option Nat) (modules : List ParsedModule) :
    (pickApplicationBinary api modules).2 = none
    ∧ getDeviceOsBinaries api skipDeviceOSFlash applicationOnly target
        currentDeviceOsVersion modules
      = getDeviceOsBinaries (fun _ _ => Except.ok none) skipDeviceOSFlash
          applicationOnly target currentDeviceOsVersion modules
    ∧ (target = none →
        getDeviceOsBinaries api skipDeviceOSFlash applicationOnly target
          currentDeviceOsVersion modules = FetchDecision.nothing) := by
  have ha : (pickApplicationBinary api modules).2 = none :=
    pickApplicationBinary_snd_none api (by intro a b; rw [hapi a b]) modules
  have hb : (pickApplicationBinary (fun _ _ => Except.ok none) modules).2 = none :=
    pickApplicationBinary_snd_none (fun _ _ => Except.ok none)
      (by intro a b; rfl) modules
  have hfst := pickApplicationBinary_fst_api_irrelevant api
    (fun _ _ => Except.ok none) modules
  refine ⟨ha, ?_, ?_⟩
  · simp only [getDeviceOsBinaries, ha, hb, hfst]
  · intro ht
    subst ht
    simp only [getDeviceOsBinaries, ha]
    by_cases h1 : (modules.filter fun m =>
        m.prefixInfo.moduleFunction = FunctionType.systemPart
          || m.prefixInfo.moduleFunction = FunctionType.bootloader).length ≠ 0
    · rw [if_pos h1]
    · rw [if_neg h1]
      by_cases h2 : (pickApplicationBinary api modules).1.isNone = true
      · rw [if_pos h2]
      · rw [if_neg h2]
        cases applicationOnly with
        | true => simp
        | false =>
          simp only [Bool.false_eq_true, if_false]
          cases skipDeviceOSFlash with
          | true => simp
          | false =>
            simp only [Bool.false_eq_true, if_false]

/-- Witness for C7 at a concrete input: an always-failing catalog, one
user-part module, no target; resolution yields no fetch and no error. -/
theorem versionLookupFailure_nonfatal_witness :
    (pickApplicationBinary (fun _ _ => Except.error ()) [sampleApp]).2 = none
    ∧ getDeviceOsBinaries (fun _ _ => Except.error ()) false false none
        (some 100) [sampleApp]
      = getDeviceOsBinaries (fun _ _ => Except.ok none) false false none
          (some 100) [sampleApp]
    ∧ (none = (none : Option Nat) →
        getDeviceOsBinaries (fun _ _ => Except.error ()) false false none
          (some 100) [sampleApp] = FetchDecision.nothing) :=
  versionLookupFailure_nonfatal (fun _ _ => Except.error ()) (fun _ _ => rfl)
    false false none (some 100) [sampleApp]

/-! ## C8, C9 — the USB entry point's catch block -/

/-- C8 (code bug): with one normal-mode step whose write fails, on a
device open in normal mode, `flashFiles`'s cleanup closes the handle
once — but the full `flashOverUsb` pipeline closes it twice, because the
catch block closes the handle again after `flashFiles`'s `finally`
already did. -/
theorem flashOverUsb_closes_twice :
    countClose (flashFiles (fun _ => false) false ⟨true, false⟩
        [baseStep sampleBoot]).1 = 1
    ∧ countClose (flashOverUsb samplePlatformEnc (fun _ => false) [sampleBoot]
        ⟨true, false⟩ false).1 = 2 := by
  decide

/-- C9 (code bug): with one normal-mode step whose write fails, the try
block of `flashOverUsb` throws a write failure naming the step, but the
function's catch block discards it: no error leaves `flashOverUsb`. -/
theorem flashOverUsb_swallows_write_failure :
    (flashOverUsbAttempt samplePlatformEnc (fun _ => false) [sampleBoot]
        ⟨true, false⟩ false).2 = some (FlashError.writeFailure "boot.bin")
    ∧ (flashOverUsb samplePlatformEnc (fun _ => false) [sampleBoot]
        ⟨true, false⟩ false).2 = none := by
  decide

/-! ## C10 — erase-progress clamping -/

theorem runProgress_erased (flashSteps : List FlashStep) (s : FlashStep) :
    ∀ (evs : List ProgressEvent) (st : ProgressState) (total : Nat),
    st.step = some s → st.eraseSize ≤ s.data.length →
    (∀ ev ∈ evs, ∃ b, ev = ProgressEvent.erased b) →
    ∃ st₂, runProgress flashSteps st total evs
        = some (st₂, total + (st₂.eraseSize - st.eraseSize) * st.flashMultiplier)
      ∧ st₂.step = some s ∧ st₂.flashMultiplier = st.flashMultiplier
      ∧ st.eraseSize ≤ st₂.eraseSize ∧ st₂.eraseSize ≤ s.data.length := by
  intro evs
  induction evs with
  | nil =>
    intro st total hstep hsize hevs
    exact ⟨st, by rw [runProgress]; simp, hstep, rfl, le_refl _, hsize⟩
  | cons ev rest ih =>
    intro st total hstep hsize hevs
    obtain ⟨b, rfl⟩ := hevs _ (List.mem_cons_self _ _)
    by_cases hb : s.data.length < st.eraseSize + b
    · have hph : progressHandle flashSteps st (ProgressEvent.erased b)
          = some ({ st with eraseSize := s.data.length },
              (s.data.length - st.eraseSize) * st.flashMultiplier) := by
        simp [progressHandle, hstep, hb]
      obtain ⟨st₂, hrun, h1, h2, h3, h4⟩ :=
        ih { st with eraseSize := s.data.length }
          (total + (s.data.length - st.eraseSize) * st.flashMultiplier)
          hstep (le_refl _) (fun ev hev => hevs ev (List.mem_cons_of_mem _ hev))
      dsimp only at hrun h2 h3
      refine ⟨st₂, ?_, h1, h2, by omega, h4⟩
      rw [runProgress, hph]
      dsimp only
      rw [hrun]
      have he : (s.data.length - st.eraseSize) + (st₂.eraseSize - s.data.length)
          = st₂.eraseSize - st.eraseSize := by omega
      rw [Nat.add_assoc, ← Nat.add_mul, he]
    · have hle : st.eraseSize + b ≤ s.data.length := Nat.not_lt.mp hb
      have hph : progressHandle flashSteps st (ProgressEvent.erased b)
          = some ({ st with eraseSize := st.eraseSize + b },
              b * st.flashMultiplier) := by
        simp [progressHandle, hstep, hb]
      obtain ⟨st₂, hrun, h1, h2, h3, h4⟩ :=
        ih { st with eraseSize := st.eraseSize + b }
          (total + b * st.flashMultiplier) hstep hle
          (fun ev hev => hevs ev (List.mem_cons_of_mem _ hev))
      dsimp only at hrun h2 h3
      refine ⟨st₂, ?_, h1, h2, by omega, h4⟩
      rw [runProgress, hph]
      dsimp only
      rw [hrun]
      have he : b + (st₂.eraseSize - (st.eraseSize + b))
          = st₂.eraseSize - st.eraseSize := by omega
      rw [Nat.add_assoc, ← Nat.add_mul, he]

/-- C10: while a step is current in the progress handler, an erase event
that would overshoot the step's payload length is clamped to report
exactly the remaining bytes; over any sequence of erase events the
accumulated erase count never exceeds the payload length, the reported
progress equals the erase-count increase times the step's multiplier
(so the bar is monotonically non-decreasing), and that report is bounded
by the step's payload share of the precomputed total. -/
theorem erased_progress_capped (flashSteps : List FlashStep) (s : FlashStep)
    (st : ProgressState) (total : Nat) (evs : List ProgressEvent)
    (hstep : st.step = some s) (hsize : st.eraseSize ≤ s.data.length)
    (hevs : ∀ ev ∈ evs, ∃ b, ev = ProgressEvent.erased b) :
    (∀ b, s.data.length < st.eraseSize + b →
      progressHandle flashSteps st (ProgressEvent.erased b)
        = some ({ st with eraseSize := s.data.length },
            (s.data.length - st.eraseSize) * st.flashMultiplier))
    ∧ ∃ st₂, runProgress flashSteps st total evs
          = some (st₂, total + (st₂.eraseSize - st.eraseSize) * st.flashMultiplier)
        ∧ st₂.step = some s
        ∧ st₂.flashMultiplier = st.flashMultiplier
        ∧ st.eraseSize ≤ st₂.eraseSize
        ∧ st₂.eraseSize ≤ s.data.length
        ∧ (st₂.eraseSize - st.eraseSize) * st.flashMultiplier
            ≤ s.data.length * st.flashMultiplier := by
  constructor
  · intro b hb
    simp [progressHandle, hstep, hb]
  · obtain ⟨st₂, hrun, h1, h2, h3, h4⟩ :=
      runProgress_erased flashSteps s evs st total hstep hsize hevs
    exact ⟨st₂, hrun, h1, h2, h3, h4,
      Nat.mul_le_mul (by omega) (le_refl st.flashMultiplier)⟩

/-- Witness for C10 at a concrete input: a 4-byte step with multiplier
1, two erase events of 3 bytes each; the second is clamped and the
accumulated count stays at 4. -/
theorem erased_progress_capped_witness :
    (∀ b, sampleStep4.data.length < sampleProgressStart.eraseSize + b →
      progressHandle [sampleStep4] sampleProgressStart (ProgressEvent.erased b)
        = some ({ sampleProgressStart with eraseSize := sampleStep4.data.length },
            (sampleStep4.data.length - sampleProgressStart.eraseSize)
              * sampleProgressStart.flashMultiplier))
    ∧ ∃ st₂, runProgress [sampleStep4] sampleProgressStart 0
          [ProgressEvent.erased 3, ProgressEvent.erased 3]
        = some (st₂, 0 + (st₂.eraseSize - sampleProgressStart.eraseSize)
            * sampleProgressStart.flashMultiplier)
      ∧ st₂.step = some sampleStep4
      ∧ st₂.flashMultiplier = sampleProgressStart.flashMultiplier
      ∧ sampleProgressStart.eraseSize ≤ st₂.eraseSize
      ∧ st₂.eraseSize ≤ sampleStep4.data.length
      ∧ (st₂.eraseSize - sampleProgressStart.eraseSize)
            * sampleProgressStart.flashMultiplier
          ≤ sampleStep4.data.length * sampleProgressStart.flashMultiplier :=
  erased_progress_capped [sampleStep4] sampleStep4 sampleProgressStart 0
    [ProgressEvent.erased 3, ProgressEvent.erased 3] rfl (by decide)
    (by
      intro ev hev
      rcases List.mem_cons.mp hev with rfl | hev₂
      · exact ⟨3, rfl⟩
      · rcases List.mem_cons.mp hev₂ with rfl | hev₃
        · exact ⟨3, rfl⟩
        · simp at hev₃)
